import Mathlib

/-!
Verification development for the MC-report repository.

The two algorithmic cores are embedded shallowly:

* `monte_carlo/monte_carlo_simulation.py` (`simulates`) and the per-team
  orchestration in `monte_carlo/forecasted_throughput.py`
  (`process_team_forecast`, `get_release_info`);
* the sprint-membership reconstruction in
  `jira_connector/get_sprint_data.py` (`extract_sprint_ids` and the
  per-sprint classification loop inside `get`).

Numeric values are modelled over `ℚ` (Python floats/ints appear here as exact
rationals), dates and timestamps as integers (day ordinals), and the
process-global random source as an explicit function `draws : ℕ → ℕ → ℕ`
giving, for trial `i` and day `j`, the index of the history element that
`random.choice` picks (taken modulo the history length, so every function
models a possible sequence of draws and every sequence of draws is modelled).
Python exceptions are modelled by `Option`: `none` is an uncaught error.
-/

/-- Result dictionary of `simulates`: `_70_pt` is the 30th percentile of the
simulated totals, `_85_pt` the 15th percentile. -/
structure SimResult where
  _70_pt : ℚ
  _85_pt : ℚ
deriving DecidableEq

/-- Linear interpolation of a (sorted) list at fractional index `h`:
`s[⌊h⌋] + (h - ⌊h⌋) * (s[⌊h⌋+1] - s[⌊h⌋])`, with out-of-range reads
defaulting to `0` (such reads only occur multiplied by a zero fraction for
`0 ≤ h ≤ length - 1`). -/
def interpAt (s : List ℚ) (h : ℚ) : ℚ :=
  s.getD ⌊h⌋₊ 0 + (h - (⌊h⌋₊ : ℚ)) * (s.getD (⌊h⌋₊ + 1) 0 - s.getD ⌊h⌋₊ 0)

/-- `np.percentile(xs, q)` with the default linear interpolation: sort the
data ascending and interpolate at fractional index `q * (n - 1) / 100`.
(`np.percentile` of an empty list raises; that case is unreachable here
because `simulates` returns `none` when `simulations ≤ 0`.) -/
def npPercentile (xs : List ℚ) (q : ℚ) : ℚ :=
  let s := List.insertionSort (· ≤ ·) xs
  interpAt s (q * ((s.length : ℚ) - 1) / 100)

/-- The list of simulated totals built by the two nested loops of
`simulates`: for each trial `i < T`, sum `fd` values sampled from the
history (`random.choice` modelled by the index function `draws`). -/
def simTotals (H : List ℚ) (fd T : ℕ) (draws : ℕ → ℕ → ℕ) : List ℚ :=
  (List.range T).map fun i =>
    ((List.range fd).map fun j => H.getD (draws i j % H.length) 0).sum

/-- `monte_carlo_simulation.simulates(historical_throughput, forecast_days,
simulations)`.  `none` models an uncaught Python exception:
`np.percentile([])` raises when `simulations ≤ 0` (empty totals list), and
`random.choice([])` raises `IndexError` when the history is empty and at
least one sample is drawn (`forecast_days ≥ 1` and `simulations ≥ 1`).
Otherwise the dict `{_70_pt: np.percentile(totals, 30), _85_pt:
np.percentile(totals, 15)}` is returned. -/
def simulates (historical_throughput : List ℚ) (forecast_days simulations : ℤ)
    (draws : ℕ → ℕ → ℕ) : Option SimResult :=
  if simulations ≤ 0 then none
  else if historical_throughput = [] ∧ 1 ≤ forecast_days then none
  else
    let all_forecasts :=
      simTotals historical_throughput forecast_days.toNat simulations.toNat draws
    some ⟨npPercentile all_forecasts 30, npPercentile all_forecasts 15⟩

/-- Minimum of a list of rationals (`min(H)` in the spec's property
statements); `0` on the empty list, which is never used. -/
def listMin : List ℚ → ℚ
  | [] => 0
  | [x] => x
  | x :: y :: t => min x (listMin (y :: t))

/-- Maximum of a list of rationals (`max(H)` in the spec's property
statements); `0` on the empty list, which is never used. -/
def listMax : List ℚ → ℚ
  | [] => 0
  | [x] => x
  | x :: y :: t => max x (listMax (y :: t))

/-- `get_release_info` line 30: `days_until_release =
abs(release_date - datetime.date.today()).days`, with dates as day
ordinals. -/
def days_until_release (release_date today : ℤ) : ℤ :=
  |release_date - today|

/-- Python `int()` applied to a float: truncation toward zero. -/
def pyInt (q : ℚ) : ℤ :=
  if 0 ≤ q then ⌊q⌋ else -⌊-q⌋

/-- One row of the per-team forecast table, in the column order of
`get_forecasted_throughput`. -/
structure ForecastRow where
  team_name : String
  _85_pt : ℤ
  _70_pt : ℤ
  days_until_release : ℤ
  current_period_forecast : ℤ
deriving DecidableEq

/-- `forecasted_throughput.process_team_forecast`.  `team_data` models the
pandas groupby as an association list from team name to that team's
throughput values already sorted by `date_day` descending (groupby groups
are nonempty, but the model does not rely on that).  A missing team
(`team_name not in team_data.groups`) yields the placeholder row
`[team_name, 0, 0, days_until_release, 0]`.  Otherwise the history is
truncated to `relevant_range` entries and `simulates` runs twice; `none`
models an uncaught exception propagating out of the function. -/
def process_team_forecast (team_name : String)
    (team_data : List (String × List ℚ))
    (days_until_release relevant_range simulations cadence : ℤ)
    (draws1 draws2 : ℕ → ℕ → ℕ) : Option ForecastRow :=
  match team_data.lookup team_name with
  | none => some ⟨team_name, 0, 0, days_until_release, 0⟩
  | some rows =>
    let historical_throughput := rows.take relevant_range.toNat
    match simulates historical_throughput days_until_release simulations draws1 with
    | none => none
    | some current_forecast =>
      match simulates historical_throughput (7 * (cadence + 1)) simulations draws2 with
      | none => none
      | some future_forecast =>
        some ⟨team_name, pyInt future_forecast._85_pt, pyInt future_forecast._70_pt,
              days_until_release, pyInt current_forecast._85_pt⟩

/-- A fixed trivial draw sequence used in concrete witnesses. -/
def draws0 : ℕ → ℕ → ℕ := fun _ _ => 0

/-- Draw sequence used in the C1 counterexample: trials `0..19` pick index
`0`, the rest pick index `1`. -/
def cdrawsC1 : ℕ → ℕ → ℕ := fun i _ => if i < 20 then 0 else 1

/-!
## Sprint membership model (`jira_connector/get_sprint_data.py`)

Dates and timestamps are integers (day ordinals).  JIRA strings holding
comma-separated lists (`toString`, `fromString`, `to`, `from`) are modelled
as the lists their `.split(", ")` produces.  Python `set`s of issue ids are
modelled as `List String` with dedup-insert.
-/

/-- One entry of an issue's change-history `items` list.  `field`,
`fromString`, `toString` are read by the classification loop in `get`;
`fieldtype`, `fieldId`, `fromIds` (`item["from"]`), `toIds` (`item["to"]`)
are read by `extract_sprint_ids`. -/
structure HistItem where
  field : String
  fieldtype : String
  fieldId : String
  fromString : List String
  toString : List String
  fromIds : List String
  toIds : List String
deriving DecidableEq

/-- One change-history entry: a timestamp (`created`, parsed by `_to_dt`)
and its list of items. -/
structure History where
  created : ℤ
  items : List HistItem
deriving DecidableEq

/-- The fields of an issue row used by the per-sprint classification loop.
`Backlog` is the creation date (`none` when the CSV cell is null). -/
structure Issue where
  ID : String
  Current_Status_Category : String
  Story_Points : Option ℚ
  Backlog : Option ℤ
  Change_Log : List History
deriving DecidableEq

/-- One value of `sprint_dict`: display name and `[start, end]` window. -/
structure SprintInfo where
  sprint_name : String
  start_date : ℤ
  end_date : ℤ
deriving DecidableEq

/-- `set(item["toString"].split(", ")) - set(item["fromString"].split(", "))`
as the sub-list of `toString` not occurring in `fromString` (only membership
in this set is ever tested). -/
def addedDiff (item : HistItem) : List String :=
  item.toString.filter fun s => !decide (s ∈ item.fromString)

/-- `set(item["fromString"].split(", ")) - set(item["toString"].split(", "))`. -/
def removedDiff (item : HistItem) : List String :=
  item.fromString.filter fun s => !decide (s ∈ item.toString)

/-- The three accumulating id sets of the per-sprint loop in `get`. -/
structure SprintSets where
  initial_issues : List String
  added_issues : List String
  removed_issues : List String
deriving DecidableEq

/-- The empty starting state of the three sets. -/
def emptySets : SprintSets := ⟨[], [], []⟩

/-- The `for item in history["items"]` loop (lines 209-234): the first item
with `field == "Sprint"` is decisive.  If the sprint's name is in its
added-to difference, classify Initial (timestamp ≤ sprint start, unless the
id is already Added) or Added (unless already Initial) and stop; otherwise
mark Removed when the name is in the removed-from difference with timestamp
≥ sprint start, and stop in any case (`decided_added_or_removed = True` and
`break` run unconditionally on that path).  Returns the updated sets and the
`decided_added_or_removed` flag. -/
def scanItems (sprintName : String) (sprintStart : ℤ) (issueID : String)
    (created : ℤ) (sets : SprintSets) : List HistItem → SprintSets × Bool
  | [] => (sets, false)
  | item :: rest =>
    if item.field = "Sprint" then
      if sprintName ∈ addedDiff item then
        if created ≤ sprintStart then
          (if issueID ∈ sets.added_issues then (sets, true)
           else ({ sets with initial_issues := sets.initial_issues.insert issueID }, true))
        else
          (if issueID ∈ sets.initial_issues then (sets, true)
           else ({ sets with added_issues := sets.added_issues.insert issueID }, true))
      else
        if sprintName ∈ removedDiff item ∧ sprintStart ≤ created then
          ({ sets with removed_issues := sets.removed_issues.insert issueID }, true)
        else (sets, true)
    else scanItems sprintName sprintStart issueID created sets rest

/-- The `for history in change_log["histories"]` loop (lines 208-236): stop
as soon as an item-level scan reports `decided_added_or_removed`. -/
def scanHistories (sprintName : String) (sprintStart : ℤ) (issueID : String)
    (sets : SprintSets) : List History → SprintSets × Bool
  | [] => (sets, false)
  | h :: rest =>
    match scanItems sprintName sprintStart issueID h.created sets h.items with
    | (sets', true) => (sets', true)
    | (sets', false) => scanHistories sprintName sprintStart issueID sets' rest

/-- Classification of one issue for one sprint (the body of the `for issue
in group.itertuples()` loop, minus the Blocked counters, which never touch
the three sets).  When no history entry decided the classification, the
`for`-`else` fallback (lines 237-247) runs: the Python guard
`issue not in added_issues and issue not in initial_issues` compares the row
tuple — not `issue.ID` — with sets of id strings, so it is always true and
is modelled as absent; the issue is then Initial when its `Backlog` date is
non-null and strictly before the sprint start, else Added.  The sprint start
date is modelled as present (a `None` start would raise in the Python
comparisons). -/
def classifyIssue (sprintName : String) (sprintStart : ℤ) (sets : SprintSets)
    (issue : Issue) : SprintSets :=
  match scanHistories sprintName sprintStart issue.ID sets issue.Change_Log with
  | (sets', true) => sets'
  | (sets', false) =>
    match issue.Backlog with
    | some backlog_dt =>
      if backlog_dt < sprintStart then
        { sets' with initial_issues := sets'.initial_issues.insert issue.ID }
      else { sets' with added_issues := sets'.added_issues.insert issue.ID }
    | none => { sets' with added_issues := sets'.added_issues.insert issue.ID }

/-- The whole per-sprint pass of `get` over a sprint's issue group,
accumulating the three id sets across issues. -/
def processGroup (sprintName : String) (sprintStart : ℤ) (issues : List Issue) :
    SprintSets :=
  issues.foldl (classifyIssue sprintName sprintStart) emptySets

/-- First item with `field == "Sprint"` in an item list. -/
def firstSprintItemInItems : List HistItem → Option HistItem
  | [] => none
  | item :: rest =>
    if item.field = "Sprint" then some item else firstSprintItemInItems rest

/-- First `field == "Sprint"` item over the whole change history, scanning
histories in order, paired with its history entry's timestamp. -/
def firstSprintItem : List History → Option (ℤ × HistItem)
  | [] => none
  | h :: rest =>
    match firstSprintItemInItems h.items with
    | some item => some (h.created, item)
    | none => firstSprintItem rest

/-- The decision taken from a decisive `field == "Sprint"` item (the value
`scanItems` produces once such an item is reached). -/
def decideFromItem (sprintName : String) (sprintStart : ℤ) (issueID : String)
    (created : ℤ) (sets : SprintSets) (item : HistItem) : SprintSets :=
  if sprintName ∈ addedDiff item then
    if created ≤ sprintStart then
      if issueID ∈ sets.added_issues then sets
      else { sets with initial_issues := sets.initial_issues.insert issueID }
    else
      if issueID ∈ sets.initial_issues then sets
      else { sets with added_issues := sets.added_issues.insert issueID }
  else
    if sprintName ∈ removedDiff item ∧ sprintStart ≤ created then
      { sets with removed_issues := sets.removed_issues.insert issueID }
    else sets

/-!
### Spec-side (claim-side) definitions

These follow the wording of the claims, for comparison with the code-side
functions above; they are not translations of the source.
-/

/-- Claim C2's wording: the timestamp of the first history entry containing
an item whose added-to difference includes the sprint's name. -/
def specFirstAdded (sprintName : String) : List History → Option ℤ
  | [] => none
  | h :: rest =>
    if h.items.any (fun item => decide (sprintName ∈ addedDiff item)) then
      some h.created
    else specFirstAdded sprintName rest

/-- Claim C2's classification rule, as the claim states it: the first
added-to event decides (Initial iff its timestamp ≤ sprint start), and with
no such event the issue is Initial exactly when its creation date is
strictly before the sprint start.  Returns `(isInitial, isAdded)`. -/
def claimC2Class (sprintName : String) (sprintStart : ℤ) (issue : Issue) :
    Bool × Bool :=
  match specFirstAdded sprintName issue.Change_Log with
  | some created => if created ≤ sprintStart then (true, false) else (false, true)
  | none =>
    match issue.Backlog with
    | some backlog_dt => if backlog_dt < sprintStart then (true, false) else (false, true)
    | none => (false, true)

/-- Claim C3's wording: some history item has the sprint's name in its
removed-from difference with timestamp ≥ sprint start. -/
def claimC3Removed (sprintName : String) (sprintStart : ℤ) (issue : Issue) : Bool :=
  issue.Change_Log.any fun h =>
    h.items.any fun item =>
      decide (sprintName ∈ removedDiff item ∧ sprintStart ≤ h.created)

/-!
## Candidate sprint-id collection (`extract_sprint_ids`, lines 112-149)
-/

/-- The inclusion test for a sprint id on the "to" (add) side of a change
item: its window must exist in `sprint_dict` (a `KeyError` is caught and the
id skipped) and satisfy `start_date ≤ created ≤ end_date` (line 130-134). -/
def toSideOk (sprint_dict : List (String × SprintInfo)) (created : ℤ)
    (sprint_id : String) : Bool :=
  match sprint_dict.lookup sprint_id with
  | some info => decide (info.start_date ≤ created ∧ created ≤ info.end_date)
  | none => false

/-- The inclusion test for a sprint id on the "from" (remove) side: window
present and `start_date < created ≤ end_date` (line 141-145; note the strict
lower bound, unlike the "to" side). -/
def fromSideOk (sprint_dict : List (String × SprintInfo)) (created : ℤ)
    (sprint_id : String) : Bool :=
  match sprint_dict.lookup sprint_id with
  | some info => decide (info.start_date < created ∧ created ≤ info.end_date)
  | none => false

/-- Insert into the id set every id of `ids` passing the test `ok`. -/
def addIds (ok : String → Bool) (acc : List String) (ids : List String) :
    List String :=
  ids.foldl (fun acc sprint_id => if ok sprint_id then acc.insert sprint_id else acc) acc

/-- `extract_sprint_ids(sprint_dict, sprints_json, change_log_json)`:
the ids of the final sprint-association list (`sprints_json`, modelled as
the id list parsed from it) plus, for every change-history item with
`fieldtype == "custom"` and `fieldId == "customfield_10005"`, the "to"-side
and "from"-side ids passing the corresponding window test. -/
def extract_sprint_ids (sprint_dict : List (String × SprintInfo))
    (sprints_json : List String) (change_log : List History) : List String :=
  let init := sprints_json.foldl (fun acc sprint_id => acc.insert sprint_id) []
  change_log.foldl
    (fun acc h =>
      h.items.foldl
        (fun acc item =>
          if item.fieldtype = "custom" ∧ item.fieldId = "customfield_10005" then
            addIds (fromSideOk sprint_dict h.created)
              (addIds (toSideOk sprint_dict h.created) acc item.toIds)
              item.fromIds
          else acc)
        acc)
    init

/-- Claim C4's wording of the "remove"-side test: window present and
`start_date ≤ created ≤ end_date` (non-strict lower bound). -/
def claimC4RemoveOk (sprint_dict : List (String × SprintInfo)) (created : ℤ)
    (sprint_id : String) : Bool :=
  match sprint_dict.lookup sprint_id with
  | some info => decide (info.start_date ≤ created ∧ created ≤ info.end_date)
  | none => false

/-!
## Concrete inputs used by counterexamples and witnesses
-/

/-- A history item that only changes the Sprint field: name sets given as
(fromString, toString), id sides empty. -/
def sprintItem (fromNames toNames : List String) : HistItem :=
  ⟨"Sprint", "", "", fromNames, toNames, [], []⟩

/-- C2 counterexample issue: its first Sprint-field history item (t = 0)
adds only "Other"; a later item (t = 5) adds "S". -/
def cIssueC2 : Issue :=
  ⟨"I1", "To Do", none, some 0,
    [⟨0, [sprintItem [] ["Other"]]⟩, ⟨5, [sprintItem [] ["S"]]⟩]⟩

/-- C3 counterexample issue: its first Sprint-field item (t = 2) adds "S";
a later item (t = 5) removes "S". -/
def cIssueC3 : Issue :=
  ⟨"I2", "To Do", none, some 0,
    [⟨2, [sprintItem [] ["S"]]⟩, ⟨5, [sprintItem ["S"] []]⟩]⟩

/-- C8 failing input, first row of issue "A": history adds "S" at t = 1. -/
def rowA1 : Issue := ⟨"A", "To Do", none, some 0, [⟨1, [sprintItem [] ["S"]]⟩]⟩

/-- C8 failing input, second row of issue "A" (same id, different field
values, so `drop_duplicates` keeps both): no change history, created at
t = 10. -/
def rowA2 : Issue := ⟨"A", "In Progress", none, some 10, []⟩

/-- C4 counterexample sprint table: sprint "s" with window [10, 20]. -/
def cdictC4 : List (String × SprintInfo) := [("s", ⟨"Sprint S", 10, 20⟩)]

/-- C4 counterexample change log: a remove-side ("from") event for "s"
exactly at the sprint's start date (t = 10). -/
def cclC4 : List History :=
  [⟨10, [⟨"Sprint", "custom", "customfield_10005", [], [], ["s"], []⟩]⟩]

/-!
## Helper lemmas
-/

/-- Compute `⌊q⌋₊` from sandwiching bounds. -/
theorem nfloor {q : ℚ} {n : ℕ} (h1 : (n : ℚ) ≤ q) (h2 : q < n + 1) : ⌊q⌋₊ = n := by
  have h0 : (0 : ℚ) ≤ q := le_trans (by positivity) h1
  rw [Nat.floor_eq_iff h0]
  exact ⟨h1, h2⟩

/-- A fractional index `0 ≤ h ≤ length - 1` floors to a valid index. -/
theorem floorIdx_lt {s : List ℚ} {h : ℚ} (h0 : 0 ≤ h)
    (hn : h ≤ (s.length : ℚ) - 1) : ⌊h⌋₊ < s.length := by
  have hq : (⌊h⌋₊ : ℚ) < (s.length : ℚ) := by
    have := Nat.floor_le h0
    linarith
  exact_mod_cast hq

/-- When the fractional part of `h ≤ length - 1` is nonzero, the index one
past the floor is also valid. -/
theorem floorIdx_succ_lt {s : List ℚ} {h : ℚ} (hfrac : (⌊h⌋₊ : ℚ) < h)
    (hn : h ≤ (s.length : ℚ) - 1) : ⌊h⌋₊ + 1 < s.length := by
  have hq : (⌊h⌋₊ : ℚ) + 1 < (s.length : ℚ) := by linarith
  exact_mod_cast hq

/-- In-range `getD` reads are members of the list. -/
theorem getD_mem_of_lt {s : List ℚ} {i : ℕ} (hi : i < s.length) :
    s.getD i 0 ∈ s := by
  rw [List.getD_eq_getElem _ _ hi]
  exact List.getElem_mem hi

/-- In a sorted list, `getD` at default `0` is monotone over valid indices. -/
theorem sorted_getD_mono {s : List ℚ} (hs : s.Sorted (· ≤ ·)) {i j : ℕ}
    (hij : i ≤ j) (hj : j < s.length) : s.getD i 0 ≤ s.getD j 0 := by
  have hi : i < s.length := lt_of_le_of_lt hij hj
  rw [List.getD_eq_getElem _ _ hi, List.getD_eq_getElem _ _ hj]
  rcases eq_or_lt_of_le hij with rfl | hlt
  · exact le_refl _
  · have hf : (⟨i, hi⟩ : Fin s.length) < ⟨j, hj⟩ := hlt
    have := hs.rel_get_of_lt hf
    simpa using this

/-- The interpolated value at `h` is at least the sorted list's value at
`⌊h⌋₊`. -/
theorem interpAt_floor_le {s : List ℚ} (hs : s.Sorted (· ≤ ·)) {h : ℚ}
    (h0 : 0 ≤ h) (hn : h ≤ (s.length : ℚ) - 1) :
    s.getD ⌊h⌋₊ 0 ≤ interpAt s h := by
  simp only [interpAt]
  rcases eq_or_lt_of_le (Nat.floor_le h0) with heq | hlt
  · rw [← heq]
    simp
  · have hsucc : ⌊h⌋₊ + 1 < s.length := floorIdx_succ_lt hlt hn
    have hmono : s.getD ⌊h⌋₊ 0 ≤ s.getD (⌊h⌋₊ + 1) 0 :=
      sorted_getD_mono hs (Nat.le_succ _) hsucc
    nlinarith [mul_nonneg (le_of_lt (sub_pos.2 hlt)) (sub_nonneg.2 hmono)]

/-- The interpolated value is bounded by any upper bound of the list. -/
theorem interpAt_le_of_upper {s : List ℚ} {b : ℚ}
    (hb : ∀ x ∈ s, x ≤ b) {h : ℚ} (h0 : 0 ≤ h)
    (hn : h ≤ (s.length : ℚ) - 1) : interpAt s h ≤ b := by
  have hi : ⌊h⌋₊ < s.length := floorIdx_lt h0 hn
  have hA : s.getD ⌊h⌋₊ 0 ≤ b := hb _ (getD_mem_of_lt hi)
  simp only [interpAt]
  rcases eq_or_lt_of_le (Nat.floor_le h0) with heq | hlt
  · rw [← heq]
    simpa using hA
  · have hsucc : ⌊h⌋₊ + 1 < s.length := floorIdx_succ_lt hlt hn
    have hB : s.getD (⌊h⌋₊ + 1) 0 ≤ b := hb _ (getD_mem_of_lt hsucc)
    have hfr1 : h - (⌊h⌋₊ : ℚ) ≤ 1 := by
      have := Nat.lt_floor_add_one h
      linarith
    nlinarith [mul_nonneg (sub_nonneg.2 hfr1) (sub_nonneg.2 hA),
      mul_nonneg (le_of_lt (sub_pos.2 hlt)) (sub_nonneg.2 hB)]

/-- Monotonicity of linear interpolation over a sorted list. -/
theorem interpAt_mono {s : List ℚ} (hs : s.Sorted (· ≤ ·)) {h1 h2 : ℚ}
    (h0 : 0 ≤ h1) (h12 : h1 ≤ h2) (hn : h2 ≤ (s.length : ℚ) - 1) :
    interpAt s h1 ≤ interpAt s h2 := by
  have h02 : 0 ≤ h2 := le_trans h0 h12
  have hfl : ⌊h1⌋₊ ≤ ⌊h2⌋₊ := Nat.floor_mono h12
  rcases eq_or_lt_of_le hfl with heq | hlt
  · rcases eq_or_lt_of_le (Nat.floor_le h02) with heq2 | hlt2
    · have : h1 = h2 := le_antisymm h12 (by
        calc h2 = (⌊h2⌋₊ : ℚ) := heq2.symm
        _ = (⌊h1⌋₊ : ℚ) := by rw [heq]
        _ ≤ h1 := Nat.floor_le h0)
      rw [this]
    · have hsucc : ⌊h2⌋₊ + 1 < s.length := floorIdx_succ_lt hlt2 hn
      have hmono : s.getD ⌊h2⌋₊ 0 ≤ s.getD (⌊h2⌋₊ + 1) 0 :=
        sorted_getD_mono hs (Nat.le_succ _) hsucc
      simp only [interpAt, heq]
      nlinarith [mul_nonneg (sub_nonneg.2 h12) (sub_nonneg.2 hmono)]
  · have h1n : h1 ≤ (s.length : ℚ) - 1 := le_trans h12 hn
    have hi2 : ⌊h2⌋₊ < s.length := floorIdx_lt h02 hn
    have hsucc1 : ⌊h1⌋₊ + 1 < s.length := lt_of_le_of_lt hlt hi2
    have step1 : interpAt s h1 ≤ s.getD (⌊h1⌋₊ + 1) 0 := by
      have hA : s.getD ⌊h1⌋₊ 0 ≤ s.getD (⌊h1⌋₊ + 1) 0 :=
        sorted_getD_mono hs (Nat.le_succ _) hsucc1
      have hfr1 : h1 - (⌊h1⌋₊ : ℚ) ≤ 1 := by
        have := Nat.lt_floor_add_one h1
        linarith
      simp only [interpAt]
      nlinarith [mul_nonneg (sub_nonneg.2 hfr1) (sub_nonneg.2 hA)]
    have step2 : s.getD (⌊h1⌋₊ + 1) 0 ≤ s.getD ⌊h2⌋₊ 0 :=
      sorted_getD_mono hs hlt hi2
    have step3 : s.getD ⌊h2⌋₊ 0 ≤ interpAt s h2 := interpAt_floor_le hs h02 hn
    linarith

/-- `np.percentile` is monotone in the percentile rank. -/
theorem npPercentile_mono {xs : List ℚ} (hne : xs ≠ []) {q1 q2 : ℚ}
    (hq0 : 0 ≤ q1) (hq12 : q1 ≤ q2) (hq2 : q2 ≤ 100) :
    npPercentile xs q1 ≤ npPercentile xs q2 := by
  simp only [npPercentile]
  have hsorted : (List.insertionSort (· ≤ ·) xs).Sorted (· ≤ ·) :=
    List.sorted_insertionSort _ xs
  have hlen : (List.insertionSort (· ≤ ·) xs).length = xs.length :=
    (List.perm_insertionSort _ xs).length_eq
  have hpos : 1 ≤ xs.length := List.length_pos.2 hne
  have hposq : (1 : ℚ) ≤ (xs.length : ℚ) := by exact_mod_cast hpos
  set n : ℚ := ((List.insertionSort (· ≤ ·) xs).length : ℚ) with hn
  have hn1 : (1 : ℚ) ≤ n := by
    rw [hn, hlen]
    exact hposq
  apply interpAt_mono hsorted
  · exact div_nonneg (mul_nonneg hq0 (by linarith)) (by norm_num)
  · have h : q1 * (n - 1) ≤ q2 * (n - 1) := by nlinarith
    exact div_le_div_of_nonneg_right h (by norm_num)
  · rw [div_le_iff₀ (by norm_num : (0:ℚ) < 100)]
    nlinarith

/-- `np.percentile` of a nonempty list lies between any lower and upper
bound of the data. -/
theorem npPercentile_bounds {xs : List ℚ} (hne : xs ≠ []) {a b q : ℚ}
    (ha : ∀ x ∈ xs, a ≤ x) (hb : ∀ x ∈ xs, x ≤ b)
    (hq0 : 0 ≤ q) (hq1 : q ≤ 100) :
    a ≤ npPercentile xs q ∧ npPercentile xs q ≤ b := by
  simp only [npPercentile]
  have hsorted : (List.insertionSort (· ≤ ·) xs).Sorted (· ≤ ·) :=
    List.sorted_insertionSort _ xs
  have hmem : ∀ x ∈ List.insertionSort (· ≤ ·) xs, x ∈ xs := fun x hx =>
    (List.perm_insertionSort (· ≤ ·) xs).mem_iff.1 hx
  have hlen : (List.insertionSort (· ≤ ·) xs).length = xs.length :=
    (List.perm_insertionSort _ xs).length_eq
  have hpos : 1 ≤ xs.length := List.length_pos.2 hne
  have hposq : (1 : ℚ) ≤ (xs.length : ℚ) := by exact_mod_cast hpos
  set n : ℚ := ((List.insertionSort (· ≤ ·) xs).length : ℚ) with hn
  have hn1 : (1 : ℚ) ≤ n := by
    rw [hn, hlen]
    exact hposq
  have h0 : 0 ≤ q * (n - 1) / 100 :=
    div_nonneg (mul_nonneg hq0 (by linarith)) (by norm_num)
  have hub : q * (n - 1) / 100 ≤ n - 1 := by
    rw [div_le_iff₀ (by norm_num : (0:ℚ) < 100)]
    nlinarith
  constructor
  · have hidx : ⌊q * (n - 1) / 100⌋₊ < (List.insertionSort (· ≤ ·) xs).length :=
      floorIdx_lt h0 hub
    exact le_trans (ha _ (hmem _ (getD_mem_of_lt hidx)))
      (interpAt_floor_le hsorted h0 hub)
  · exact interpAt_le_of_upper (fun x hx => hb x (hmem x hx)) h0 hub

/-- `np.percentile` of a constant nonempty list is that constant. -/
theorem npPercentile_const {xs : List ℚ} (hne : xs ≠ []) {c q : ℚ}
    (hc : ∀ x ∈ xs, x = c) (hq0 : 0 ≤ q) (hq1 : q ≤ 100) :
    npPercentile xs q = c := by
  have := npPercentile_bounds hne (fun x hx => le_of_eq (hc x hx).symm)
    (fun x hx => le_of_eq (hc x hx)) hq0 hq1
  exact le_antisymm this.2 this.1

/-!
## Lemmas about `simTotals` and `simulates`
-/

/-- The totals list has one entry per simulation. -/
theorem simTotals_length (H : List ℚ) (fd T : ℕ) (draws : ℕ → ℕ → ℕ) :
    (simTotals H fd T draws).length = T := by
  simp [simTotals]

/-- At least one simulation means a nonempty totals list. -/
theorem simTotals_ne_nil {H : List ℚ} {fd T : ℕ} {draws : ℕ → ℕ → ℕ}
    (hT : 1 ≤ T) : simTotals H fd T draws ≠ [] := by
  intro hcon
  have := congrArg List.length hcon
  rw [simTotals_length] at this
  simp at this
  omega

/-- Each sampled value is an element of a nonempty history. -/
theorem sample_mem {H : List ℚ} (hH : H ≠ []) (k : ℕ) :
    H.getD (k % H.length) 0 ∈ H := by
  have hl : 0 < H.length := List.length_pos.2 hH
  exact getD_mem_of_lt (Nat.mod_lt _ hl)

/-- `listMin` is a lower bound of the list. -/
theorem listMin_le : ∀ (l : List ℚ), ∀ x ∈ l, listMin l ≤ x
  | [], x, hx => by simp at hx
  | [a], x, hx => by
    rcases List.mem_singleton.1 hx with rfl
    simp [listMin]
  | a :: b :: t, x, hx => by
    rcases List.mem_cons.1 hx with rfl | hx'
    · simp only [listMin]
      exact min_le_left _ _
    · calc listMin (a :: b :: t) ≤ listMin (b :: t) := by
            simp only [listMin]
            exact min_le_right _ _
        _ ≤ x := listMin_le (b :: t) x hx'

/-- `listMax` is an upper bound of the list. -/
theorem le_listMax : ∀ (l : List ℚ), ∀ x ∈ l, x ≤ listMax l
  | [], x, hx => by simp at hx
  | [a], x, hx => by
    rcases List.mem_singleton.1 hx with rfl
    simp [listMax]
  | a :: b :: t, x, hx => by
    rcases List.mem_cons.1 hx with rfl | hx'
    · simp only [listMax]
      exact le_max_left _ _
    · calc x ≤ listMax (b :: t) := le_listMax (b :: t) x hx'
        _ ≤ listMax (a :: b :: t) := by
            simp only [listMax]
            exact le_max_right _ _

/-- Every simulated total lies within `[fd · min H, fd · max H]`. -/
theorem simTotals_bounds {H : List ℚ} (hH : H ≠ []) (fd T : ℕ)
    (draws : ℕ → ℕ → ℕ) :
    ∀ x ∈ simTotals H fd T draws,
      (fd : ℚ) * listMin H ≤ x ∧ x ≤ (fd : ℚ) * listMax H := by
  intro x hx
  rcases List.mem_map.1 hx with ⟨i, _, rfl⟩
  set inner := (List.range fd).map fun j => H.getD (draws i j % H.length) 0 with hin
  have hlen : inner.length = fd := by simp [hin]
  have hmemH : ∀ y ∈ inner, y ∈ H := by
    intro y hy
    rcases List.mem_map.1 hy with ⟨j, _, rfl⟩
    exact sample_mem hH _
  constructor
  · have := List.card_nsmul_le_sum inner (listMin H)
      (fun y hy => listMin_le H y (hmemH y hy))
    rwa [hlen, nsmul_eq_mul] at this
  · have := List.sum_le_card_nsmul inner (listMax H)
      (fun y hy => le_listMax H y (hmemH y hy))
    rwa [hlen, nsmul_eq_mul] at this

/-- With an all-equal history every simulated total is `fd · v`. -/
theorem simTotals_const {H : List ℚ} (hH : H ≠ []) {v : ℚ}
    (hv : ∀ x ∈ H, x = v) (fd T : ℕ) (draws : ℕ → ℕ → ℕ) :
    ∀ x ∈ simTotals H fd T draws, x = (fd : ℚ) * v := by
  intro x hx
  rcases List.mem_map.1 hx with ⟨i, _, rfl⟩
  have hcongr : ((List.range fd).map fun j => H.getD (draws i j % H.length) 0) =
      (List.range fd).map fun _ => v := by
    apply List.map_congr_left
    intro j _
    exact hv _ (sample_mem hH _)
  rw [hcongr, List.map_const', List.sum_replicate, List.length_range,
    nsmul_eq_mul]

/-- With zero forecast days every simulated total is `0`. -/
theorem simTotals_zero_days (H : List ℚ) (T : ℕ) (draws : ℕ → ℕ → ℕ) :
    ∀ x ∈ simTotals H 0 T draws, x = 0 := by
  intro x hx
  rcases List.mem_map.1 hx with ⟨i, _, rfl⟩
  simp

/-!
## Claims about the Monte Carlo engine and the orchestrator
-/

/-- C1 (amended): for every non-empty history, `forecast_days ≥ 1`,
`trials ≥ 100` and every draw sequence, the returned `_85_pt` (15th
percentile) is less than or equal to the returned `_70_pt` (30th
percentile) — the reverse of the claimed direction. -/
theorem C1_amended_85_le_70 (H : List ℚ) (hH : H ≠ []) (d T : ℤ)
    (hd : 1 ≤ d) (hT : 100 ≤ T) (draws : ℕ → ℕ → ℕ) :
    ∃ r, simulates H d T draws = some r ∧ r._85_pt ≤ r._70_pt := by
  have hT' : ¬ (T ≤ 0) := by omega
  have hcond : ¬ (H = [] ∧ 1 ≤ d) := fun hc => hH hc.1
  simp only [simulates, if_neg hT', if_neg hcond]
  refine ⟨_, rfl, ?_⟩
  have hne : simTotals H d.toNat T.toNat draws ≠ [] :=
    simTotals_ne_nil (by omega)
  exact npPercentile_mono hne (by norm_num) (by norm_num) (by norm_num)

/-- Witness for C1 (amended) at a concrete input. -/
theorem C1_amended_witness :
    ∃ r, simulates [1] 1 100 draws0 = some r ∧ r._85_pt ≤ r._70_pt :=
  C1_amended_85_le_70 [1] (by simp) 1 100 (by norm_num) (by norm_num) draws0

/-- C6 (confirmed): an all-equal history of value `v` yields exactly
`{_70_pt: d·v, _85_pt: d·v}` for every draw sequence. -/
theorem C6_constant_history (H : List ℚ) (hH : H ≠ []) (v : ℚ)
    (hv : ∀ x ∈ H, x = v) (d T : ℤ) (hd : 1 ≤ d) (hT : 1 ≤ T)
    (draws : ℕ → ℕ → ℕ) :
    simulates H d T draws = some ⟨(d : ℚ) * v, (d : ℚ) * v⟩ := by
  have hT' : ¬ (T ≤ 0) := by omega
  have hcond : ¬ (H = [] ∧ 1 ≤ d) := fun hc => hH hc.1
  simp only [simulates, if_neg hT', if_neg hcond]
  have hne : simTotals H d.toNat T.toNat draws ≠ [] :=
    simTotals_ne_nil (by omega)
  have hcast : ((d.toNat : ℕ) : ℚ) = (d : ℚ) := by
    have := Int.toNat_of_nonneg (by linarith : (0:ℤ) ≤ d)
    exact_mod_cast congrArg (fun z : ℤ => (z : ℚ)) this
  have hconst := simTotals_const hH hv d.toNat T.toNat draws
  rw [hcast] at hconst
  rw [npPercentile_const hne hconst (by norm_num) (by norm_num),
    npPercentile_const hne hconst (by norm_num) (by norm_num)]

/-- Witness for C6 at a concrete input. -/
theorem C6_witness : simulates [2, 2] 3 5 draws0 = some ⟨6, 6⟩ := by
  have h := C6_constant_history [2, 2] (by simp) 2
    (by
      intro x hx
      rcases List.mem_cons.1 hx with rfl | hx'
      · rfl
      · rcases List.mem_singleton.1 hx' with rfl
        rfl)
    3 5 (by norm_num) (by norm_num) draws0
  norm_num at h
  exact h

/-- C7 (confirmed): both percentiles lie in `[d·min H, d·max H]` for every
draw sequence. -/
theorem C7_bounds (H : List ℚ) (hH : H ≠ []) (d T : ℤ) (hd : 1 ≤ d)
    (hT : 1 ≤ T) (draws : ℕ → ℕ → ℕ) :
    ∃ r, simulates H d T draws = some r ∧
      (d : ℚ) * listMin H ≤ r._70_pt ∧ r._70_pt ≤ (d : ℚ) * listMax H ∧
      (d : ℚ) * listMin H ≤ r._85_pt ∧ r._85_pt ≤ (d : ℚ) * listMax H := by
  have hT' : ¬ (T ≤ 0) := by omega
  have hcond : ¬ (H = [] ∧ 1 ≤ d) := fun hc => hH hc.1
  simp only [simulates, if_neg hT', if_neg hcond]
  refine ⟨_, rfl, ?_⟩
  have hne : simTotals H d.toNat T.toNat draws ≠ [] :=
    simTotals_ne_nil (by omega)
  have hcast : ((d.toNat : ℕ) : ℚ) = (d : ℚ) := by
    have := Int.toNat_of_nonneg (by linarith : (0:ℤ) ≤ d)
    exact_mod_cast congrArg (fun z : ℤ => (z : ℚ)) this
  have hb := simTotals_bounds hH d.toNat T.toNat draws
  rw [hcast] at hb
  have h30 := npPercentile_bounds hne (fun x hx => (hb x hx).1)
    (fun x hx => (hb x hx).2) (by norm_num : (0:ℚ) ≤ 30) (by norm_num)
  have h15 := npPercentile_bounds hne (fun x hx => (hb x hx).1)
    (fun x hx => (hb x hx).2) (by norm_num : (0:ℚ) ≤ 15) (by norm_num)
  exact ⟨h30.1, h30.2, h15.1, h15.2⟩

/-- Witness for C7 at a concrete input. -/
theorem C7_witness :
    ∃ r, simulates [2] 1 1 draws0 = some r ∧
      ((1 : ℤ) : ℚ) * listMin [2] ≤ r._70_pt ∧
      r._70_pt ≤ ((1 : ℤ) : ℚ) * listMax [2] ∧
      ((1 : ℤ) : ℚ) * listMin [2] ≤ r._85_pt ∧
      r._85_pt ≤ ((1 : ℤ) : ℚ) * listMax [2] :=
  C7_bounds [2] (by simp) 1 1 le_rfl le_rfl draws0

/-- C10 (confirmed): with non-positive `forecast_days` the resampler draws
no samples and returns exactly `{_70_pt: 0, _85_pt: 0}` — even on an empty
history — and this case is reachable because `days_until_release` is `0`
when the nearest release date equals today. -/
theorem C10_zero_forecast_days :
    (∀ (H : List ℚ) (d T : ℤ), d ≤ 0 → 1 ≤ T → ∀ draws : ℕ → ℕ → ℕ,
      simulates H d T draws = some ⟨0, 0⟩) ∧
    (∀ today : ℤ, days_until_release today today = 0) := by
  constructor
  · intro H d T hd hT draws
    have hT' : ¬ (T ≤ 0) := by omega
    have hcond : ¬ (H = [] ∧ 1 ≤ d) := fun hc => by omega
    have hdt : d.toNat = 0 := by omega
    simp only [simulates, if_neg hT', if_neg hcond, hdt]
    have hne : simTotals H 0 T.toNat draws ≠ [] := simTotals_ne_nil (by omega)
    have hconst := simTotals_zero_days H T.toNat draws
    rw [npPercentile_const hne hconst (by norm_num) (by norm_num),
      npPercentile_const hne hconst (by norm_num) (by norm_num)]
  · intro today
    simp [days_until_release]

/-- Witness for C10 at a concrete input. -/
theorem C10_witness :
    simulates [] (-1) 1 draws0 = some ⟨0, 0⟩ ∧ days_until_release 7 7 = 0 :=
  ⟨C10_zero_forecast_days.1 [] (-1) 1 (by norm_num) (by norm_num) draws0,
   C10_zero_forecast_days.2 7⟩

/-- C5 (amended): the resampler fails (`none`) on an empty history with
`forecast_days ≥ 1` and `trials ≥ 1`, and the orchestrator substitutes the
zero/placeholder row for a team absent from the throughput groups — it
guards before calling the resampler rather than catching its failure. -/
theorem C5_empty_history_behavior :
    (∀ (d T : ℤ), 1 ≤ d → 1 ≤ T → ∀ draws : ℕ → ℕ → ℕ,
      simulates [] d T draws = none) ∧
    (∀ (team : String) (td : List (String × List ℚ))
      (days rr sims cad : ℤ) (dr1 dr2 : ℕ → ℕ → ℕ),
      td.lookup team = none →
      process_team_forecast team td days rr sims cad dr1 dr2 =
        some ⟨team, 0, 0, days, 0⟩) := by
  constructor
  · intro d T hd hT draws
    have hT' : ¬ (T ≤ 0) := by omega
    simp only [simulates, if_neg hT']
    split
    · rfl
    · simp_all
  · intro team td days rr sims cad dr1 dr2 h
    simp only [process_team_forecast, h]

/-- Witness for C5 (amended) at concrete inputs. -/
theorem C5_witness :
    simulates [] 2 3 draws0 = none ∧
    process_team_forecast "B" [] 4 60 1000 0 draws0 draws0 =
      some ⟨"B", 0, 0, 4, 0⟩ :=
  ⟨C5_empty_history_behavior.1 2 3 (by norm_num) (by norm_num) draws0,
   C5_empty_history_behavior.2 "B" [] 4 60 1000 0 draws0 draws0 rfl⟩

/-- C5 counterexample: the orchestrator has no exception handler, so when
the resampler is actually invoked with an empty history (a team present in
the groups whose truncated history is empty, here via `relevant_range = 0`)
the failure propagates out of `process_team_forecast` instead of being
replaced by a placeholder row. -/
theorem C5_counterexample :
    process_team_forecast "A" [("A", [1])] 1 0 1 0 draws0 draws0 = none := by
  have hl : ([("A", [1])] : List (String × List ℚ)).lookup "A" = some [1] := rfl
  simp only [process_team_forecast, hl]
  norm_num [simulates]

/-- C9 (confirmed): a configured team with no throughput rows gets the row
`[team, 0, 0, days_until_release, 0]` — all forecast fields zero — rather
than an error. -/
theorem C9_missing_team_zero_row (team : String)
    (td : List (String × List ℚ)) (days rr sims cad : ℤ)
    (dr1 dr2 : ℕ → ℕ → ℕ) (h : td.lookup team = none) :
    process_team_forecast team td days rr sims cad dr1 dr2 =
      some ⟨team, 0, 0, days, 0⟩ := by
  simp only [process_team_forecast, h]

/-- Witness for C9 at a concrete input. -/
theorem C9_witness :
    process_team_forecast "C" [] 5 60 1000 1 draws0 draws0 =
      some ⟨"C", 0, 0, 5, 0⟩ :=
  C9_missing_team_zero_row "C" [] 5 60 1000 1 draws0 draws0 rfl

/-!
## C1: evaluating the counterexample run
-/

/-- `getD` into a two-block constant list. -/
theorem getD_rep_rep {a b : ℚ} {m n i : ℕ} (h : i < m + n) :
    (List.replicate m a ++ List.replicate n b).getD i 0 =
      if i < m then a else b := by
  split
  · rename_i him
    rw [List.getD_append _ _ _ _ (by simpa using him),
      List.getD_eq_getElem _ _ (by simpa using him), List.getElem_replicate]
  · rename_i him
    push_neg at him
    rw [List.getD_append_right _ _ _ _ (by simpa using him),
      List.getD_eq_getElem _ _ (by simp; omega), List.getElem_replicate]

/-- The totals of the C1 counterexample run: 20 zeros then 80 ones. -/
theorem simTotalsC1_eval :
    simTotals [0, 1] 1 100 cdrawsC1 =
      List.replicate 20 0 ++ List.replicate 80 1 := by
  have h100 : (100 : ℕ) = 20 + 80 := rfl
  rw [simTotals, h100, List.range_add, List.map_append, List.map_map]
  congr 1
  · rw [List.eq_replicate_iff]
    refine ⟨by simp, ?_⟩
    intro b hb
    rcases List.mem_map.1 hb with ⟨i, hi, rfl⟩
    have h1 : i < 20 := List.mem_range.1 hi
    simp [cdrawsC1, h1, List.range_succ, List.range_zero]
  · rw [List.eq_replicate_iff]
    refine ⟨by simp, ?_⟩
    intro b hb
    rcases List.mem_map.1 hb with ⟨i, hi, rfl⟩
    have h1 : ¬ (20 + i < 20) := by omega
    simp [cdrawsC1, h1, List.range_succ, List.range_zero]

/-- The C1 counterexample totals list is already sorted. -/
theorem sortedC1 :
    List.Sorted (· ≤ ·) (List.replicate 20 (0:ℚ) ++ List.replicate 80 1) := by
  rw [List.Sorted, List.pairwise_append]
  refine ⟨List.pairwise_replicate.2 (Or.inr le_rfl),
    List.pairwise_replicate.2 (Or.inr le_rfl), ?_⟩
  intro a ha b hb
  rw [List.eq_of_mem_replicate ha, List.eq_of_mem_replicate hb]
  norm_num

/-- The concrete run behind the C1 counterexample: history `[0, 1]`, one
forecast day, 100 trials, draws picking `0` in the first 20 trials and `1`
in the remaining 80; the 30th percentile of the totals is `1` and the 15th
percentile is `0`. -/
theorem simulatesC1_eval : simulates [0, 1] 1 100 cdrawsC1 = some ⟨1, 0⟩ := by
  have hlen : (List.replicate 20 (0:ℚ) ++ List.replicate 80 1).length = 100 := by
    simp
  have h30 : npPercentile (List.replicate 20 (0:ℚ) ++ List.replicate 80 1) 30 = 1 := by
    have hidx : 30 * ((100 : ℚ) - 1) / 100 = 297 / 10 := by norm_num
    have hfl : ⌊(297 / 10 : ℚ)⌋₊ = 29 := nfloor (by norm_num) (by norm_num)
    simp only [npPercentile, List.Sorted.insertionSort_eq sortedC1, hlen,
      Nat.cast_ofNat, interpAt, hidx, hfl]
    rw [getD_rep_rep (by norm_num : (29:ℕ) < 20 + 80),
      getD_rep_rep (by norm_num : 29 + 1 < 20 + 80)]
    norm_num
  have h15 : npPercentile (List.replicate 20 (0:ℚ) ++ List.replicate 80 1) 15 = 0 := by
    have hidx : 15 * ((100 : ℚ) - 1) / 100 = 297 / 20 := by norm_num
    have hfl : ⌊(297 / 20 : ℚ)⌋₊ = 14 := nfloor (by norm_num) (by norm_num)
    simp only [npPercentile, List.Sorted.insertionSort_eq sortedC1, hlen,
      Nat.cast_ofNat, interpAt, hidx, hfl]
    rw [getD_rep_rep (by norm_num : (14:ℕ) < 20 + 80),
      getD_rep_rep (by norm_num : 14 + 1 < 20 + 80)]
    norm_num
  have hT' : ¬ ((100 : ℤ) ≤ 0) := by norm_num
  have hcond : ¬ (([0, 1] : List ℚ) = [] ∧ (1 : ℤ) ≤ 1) := by simp
  simp only [simulates, if_neg hT', if_neg hcond]
  rw [show (1 : ℤ).toNat = 1 from rfl, show (100 : ℤ).toNat = 100 from rfl,
    simTotalsC1_eval, h30, h15]

/-- C1 counterexample: the claim "`_85_pt ≥ _70_pt` for every non-empty
history, `forecast_days ≥ 1`, `trials ≥ 100`" is false — at history
`[0, 1]`, one forecast day, 100 trials and the draw sequence `cdrawsC1` the
resampler returns `_70_pt = 1 > 0 = _85_pt`. -/
theorem C1_counterexample :
    ¬ (∀ (H : List ℚ) (d T : ℤ), H ≠ [] → 1 ≤ d → 100 ≤ T →
      ∀ (draws : ℕ → ℕ → ℕ) (r : SimResult),
        simulates H d T draws = some r → r._70_pt ≤ r._85_pt) := by
  intro hclaim
  have h := hclaim [0, 1] 1 100 (by simp) (by norm_num) (by norm_num)
    cdrawsC1 ⟨1, 0⟩ simulatesC1_eval
  norm_num at h

/-!
## The classification loop decides at the first Sprint-field item
-/

/-- The item loop is determined by the first `field == "Sprint"` item. -/
theorem scanItems_eq (sprintName : String) (sprintStart : ℤ) (issueID : String)
    (created : ℤ) (sets : SprintSets) (items : List HistItem) :
    scanItems sprintName sprintStart issueID created sets items =
      match firstSprintItemInItems items with
      | none => (sets, false)
      | some item =>
        (decideFromItem sprintName sprintStart issueID created sets item, true) := by
  induction items with
  | nil => rfl
  | cons item rest ih =>
    by_cases hf : item.field = "Sprint"
    · simp only [scanItems, firstSprintItemInItems, if_pos hf, decideFromItem]
      split_ifs <;> rfl
    · simp only [scanItems, firstSprintItemInItems, if_neg hf, ih]

/-- The history loop is determined by the first `field == "Sprint"` item of
the whole change history. -/
theorem scanHistories_eq (sprintName : String) (sprintStart : ℤ)
    (issueID : String) (sets : SprintSets) (hs : List History) :
    scanHistories sprintName sprintStart issueID sets hs =
      match firstSprintItem hs with
      | none => (sets, false)
      | some (created, item) =>
        (decideFromItem sprintName sprintStart issueID created sets item, true) := by
  induction hs generalizing sets with
  | nil => rfl
  | cons h rest ih =>
    simp only [scanHistories, firstSprintItem, scanItems_eq]
    cases hfs : firstSprintItemInItems h.items with
    | some item => simp
    | none => simpa using ih sets

/-- Closed form of `classifyIssue`: the first Sprint-field item decides,
else the creation-date fallback runs. -/
theorem classifyIssue_eq (sprintName : String) (sprintStart : ℤ)
    (sets : SprintSets) (issue : Issue) :
    classifyIssue sprintName sprintStart sets issue =
      match firstSprintItem issue.Change_Log with
      | some (created, item) =>
        decideFromItem sprintName sprintStart issue.ID created sets item
      | none =>
        match issue.Backlog with
        | some backlog_dt =>
          if backlog_dt < sprintStart then
            { sets with initial_issues := sets.initial_issues.insert issue.ID }
          else { sets with added_issues := sets.added_issues.insert issue.ID }
        | none => { sets with added_issues := sets.added_issues.insert issue.ID } := by
  simp only [classifyIssue, scanHistories_eq]
  rcases hfs : firstSprintItem issue.Change_Log with _ | ⟨created, item⟩ <;> simp

/-- C2 (amended): Initial/Added is decided by the first history item whose
field is the sprint field, not by the first item whose added-to difference
contains the sprint's name: if that item's added-to difference contains the
name, the issue is Initial when the timestamp is ≤ the sprint start and
Added otherwise; if it does not, no Initial/Added classification is made
from history (later items are never examined); only when no Sprint-field
item exists at all does the fallback classify Initial exactly when the
creation date is present and strictly before the sprint start, else
Added. -/
theorem C2_first_sprint_item_decides (sprintName : String) (sprintStart : ℤ)
    (issue : Issue) :
    ((issue.ID ∈ (classifyIssue sprintName sprintStart emptySets issue).initial_issues) ↔
      (∃ created item, firstSprintItem issue.Change_Log = some (created, item) ∧
        sprintName ∈ addedDiff item ∧ created ≤ sprintStart) ∨
      (firstSprintItem issue.Change_Log = none ∧
        ∃ b, issue.Backlog = some b ∧ b < sprintStart)) ∧
    ((issue.ID ∈ (classifyIssue sprintName sprintStart emptySets issue).added_issues) ↔
      (∃ created item, firstSprintItem issue.Change_Log = some (created, item) ∧
        sprintName ∈ addedDiff item ∧ sprintStart < created) ∨
      (firstSprintItem issue.Change_Log = none ∧
        ¬ ∃ b, issue.Backlog = some b ∧ b < sprintStart)) := by
  rw [classifyIssue_eq]
  rcases hfs : firstSprintItem issue.Change_Log with _ | ⟨created, item⟩
  · rcases hb : issue.Backlog with _ | b
    · simp [emptySets]
    · by_cases hlt : b < sprintStart
      · simp [hlt, emptySets, List.mem_insert_iff]
      · simp [hlt, emptySets, List.mem_insert_iff]
  · simp only [decideFromItem, emptySets]
    by_cases hadd : sprintName ∈ addedDiff item
    · by_cases hle : created ≤ sprintStart
      · simp [hadd, hle, List.mem_insert_iff, not_lt.2 hle]
        exact ⟨created, item, ⟨rfl, rfl⟩, hadd, hle⟩
      · simp [hadd, hle, List.mem_insert_iff, not_le.1 hle]
        exact ⟨created, item, ⟨rfl, rfl⟩, hadd, not_le.1 hle⟩
    · by_cases hrem : sprintName ∈ removedDiff item ∧ sprintStart ≤ created
      · simp [hadd, hrem]
      · simp [hadd, hrem]

/-- C2 counterexample: on `cIssueC2` (first Sprint-field item adds only
"Other"; a later item adds "S" after the start date 3) the claim's rule
classifies the issue Added, but the code classifies it neither Initial nor
Added — the first Sprint-field item decided and did not mention "S". -/
theorem C2_counterexample :
    claimC2Class "S" 3 cIssueC2 = (false, true) ∧
    "I1" ∉ (classifyIssue "S" 3 emptySets cIssueC2).added_issues ∧
    "I1" ∉ (classifyIssue "S" 3 emptySets cIssueC2).initial_issues :=
  ⟨by decide, by decide, by decide⟩

/-- C3 (amended): an issue is marked Removed exactly when the first
Sprint-field history item's added-to difference does not contain the
sprint's name, its removed-from difference does, and its timestamp is
≥ the sprint start; later removal events are never examined. -/
theorem C3_removed_characterization (sprintName : String) (sprintStart : ℤ)
    (issue : Issue) :
    issue.ID ∈ (classifyIssue sprintName sprintStart emptySets issue).removed_issues ↔
      ∃ created item, firstSprintItem issue.Change_Log = some (created, item) ∧
        sprintName ∉ addedDiff item ∧ sprintName ∈ removedDiff item ∧
        sprintStart ≤ created := by
  rw [classifyIssue_eq]
  rcases hfs : firstSprintItem issue.Change_Log with _ | ⟨created, item⟩
  · rcases hb : issue.Backlog with _ | b
    · simp [emptySets]
    · by_cases hlt : b < sprintStart
      · simp [hlt, emptySets]
      · simp [hlt, emptySets]
  · simp only [decideFromItem, emptySets]
    by_cases hadd : sprintName ∈ addedDiff item
    · by_cases hle : created ≤ sprintStart
      · simp [hadd, hle]
      · simp [hadd, hle]
    · by_cases hrem : sprintName ∈ removedDiff item ∧ sprintStart ≤ created
      · simp [hadd, hrem, List.mem_insert_iff]
        exact ⟨created, item, ⟨rfl, rfl⟩, hadd, hrem.1, hrem.2⟩
      · simp only [if_neg hadd, if_neg hrem, emptySets, List.not_mem_nil,
          false_iff, not_exists]
        rintro c i ⟨⟨rfl, rfl⟩, hna, hr, hsc⟩
        exact hrem ⟨hr, hsc⟩

/-- C3 counterexample: on `cIssueC3` a history item removes "S" at time 5
≥ start 3 (the claim's condition holds), yet the code does not mark the
issue Removed, because the earlier add event at time 2 was the first
Sprint-field item and stopped the scan (classifying Initial). -/
theorem C3_counterexample :
    claimC3Removed "S" 3 cIssueC3 = true ∧
    "I2" ∈ (classifyIssue "S" 3 emptySets cIssueC3).initial_issues ∧
    "I2" ∉ (classifyIssue "S" 3 emptySets cIssueC3).removed_issues :=
  ⟨by decide, by decide, by decide⟩

/-- C8 (code bug): with two rows of the same issue id "A" in one sprint
group (the first classified Initial from history, the second hitting the
creation-date fallback), the id lands in both the Initial and the Added
bucket: the fallback's guard `issue not in added_issues and issue not in
initial_issues` compares the row tuple — not `issue.ID` — with the id sets,
so it never blocks. -/
theorem C8_duplicate_id_both_buckets :
    "A" ∈ (processGroup "S" 3 [rowA1, rowA2]).initial_issues ∧
    "A" ∈ (processGroup "S" 3 [rowA1, rowA2]).added_issues :=
  ⟨by decide, by decide⟩

/-!
## Membership characterization of `extract_sprint_ids`
-/

/-- Membership after folding a guarded insert over a list of ids. -/
theorem mem_foldl_insert_if (p : String → Bool) (ids : List String) :
    ∀ (acc : List String) (x : String),
      x ∈ ids.foldl (fun a s => if p s then a.insert s else a) acc ↔
        x ∈ acc ∨ (x ∈ ids ∧ p x = true) := by
  induction ids with
  | nil =>
    intro acc x
    simp
  | cons s rest ih =>
    intro acc x
    simp only [List.foldl_cons]
    by_cases hp : p s = true
    · rw [if_pos hp, ih]
      simp only [List.mem_insert_iff, List.mem_cons]
      constructor
      · rintro ((rfl | hacc) | ⟨hr, hpx⟩)
        · exact Or.inr ⟨Or.inl rfl, hp⟩
        · exact Or.inl hacc
        · exact Or.inr ⟨Or.inr hr, hpx⟩
      · rintro (hacc | ⟨rfl | hr, hpx⟩)
        · exact Or.inl (Or.inr hacc)
        · exact Or.inl (Or.inl rfl)
        · exact Or.inr ⟨hr, hpx⟩
    · rw [if_neg hp, ih]
      simp only [List.mem_cons]
      constructor
      · rintro (hacc | ⟨hr, hpx⟩)
        · exact Or.inl hacc
        · exact Or.inr ⟨Or.inr hr, hpx⟩
      · rintro (hacc | ⟨rfl | hr, hpx⟩)
        · exact Or.inl hacc
        · exact absurd hpx hp
        · exact Or.inr ⟨hr, hpx⟩

/-- Membership in `addIds`. -/
theorem mem_addIds (ok : String → Bool) (acc : List String) (ids : List String)
    (x : String) :
    x ∈ addIds ok acc ids ↔ x ∈ acc ∨ (x ∈ ids ∧ ok x = true) := by
  rw [addIds, mem_foldl_insert_if]

/-- Membership in a fold whose step only ever adds ids satisfying a
per-element condition. -/
theorem mem_foldl_general {α : Type} (step : List String → α → List String)
    (P : String → α → Prop)
    (hstep : ∀ acc a x, x ∈ step acc a ↔ x ∈ acc ∨ P x a) (l : List α) :
    ∀ (acc : List String) (x : String),
      x ∈ l.foldl step acc ↔ x ∈ acc ∨ ∃ a ∈ l, P x a := by
  induction l with
  | nil =>
    intro acc x
    simp
  | cons a rest ih =>
    intro acc x
    simp only [List.foldl_cons]
    rw [ih, hstep, List.exists_mem_cons_iff]
    tauto

/-- The "to"-side inclusion test, spelled out. -/
theorem toSideOk_iff (dict : List (String × SprintInfo)) (created : ℤ) (x : String) :
    toSideOk dict created x = true ↔
      ∃ info, dict.lookup x = some info ∧
        info.start_date ≤ created ∧ created ≤ info.end_date := by
  rw [toSideOk]
  cases h : dict.lookup x <;> simp [h]

/-- The "from"-side inclusion test, spelled out: strict lower bound. -/
theorem fromSideOk_iff (dict : List (String × SprintInfo)) (created : ℤ) (x : String) :
    fromSideOk dict created x = true ↔
      ∃ info, dict.lookup x = some info ∧
        info.start_date < created ∧ created ≤ info.end_date := by
  rw [fromSideOk]
  cases h : dict.lookup x <;> simp [h]

/-- C4 (amended): a sprint id is collected exactly when it is in the final
association list, or some sprint-assignment change item mentions it on the
"to" side with `start ≤ t ≤ end`, or on the "from" side with
`start < t ≤ end` (strict lower bound, unlike the claim's `t ≥ start`);
ids missing from the window table contribute nothing. -/
theorem C4_membership_characterization (dict : List (String × SprintInfo))
    (sj : List String) (cl : List History) (x : String) :
    x ∈ extract_sprint_ids dict sj cl ↔
      x ∈ sj ∨ ∃ h ∈ cl, ∃ item ∈ h.items,
        item.fieldtype = "custom" ∧ item.fieldId = "customfield_10005" ∧
        ((∃ info, dict.lookup x = some info ∧ x ∈ item.toIds ∧
            info.start_date ≤ h.created ∧ h.created ≤ info.end_date) ∨
         (∃ info, dict.lookup x = some info ∧ x ∈ item.fromIds ∧
            info.start_date < h.created ∧ h.created ≤ info.end_date)) := by
  have hstep : ∀ (acc : List String) (h : History) (y : String),
      y ∈ h.items.foldl
        (fun acc item =>
          if item.fieldtype = "custom" ∧ item.fieldId = "customfield_10005" then
            addIds (fromSideOk dict h.created)
              (addIds (toSideOk dict h.created) acc item.toIds)
              item.fromIds
          else acc)
        acc ↔
      y ∈ acc ∨ ∃ item ∈ h.items,
        (item.fieldtype = "custom" ∧ item.fieldId = "customfield_10005") ∧
        ((y ∈ item.toIds ∧ toSideOk dict h.created y = true) ∨
         (y ∈ item.fromIds ∧ fromSideOk dict h.created y = true)) := by
    intro acc h y
    apply mem_foldl_general
    intro acc' item z
    by_cases hc : item.fieldtype = "custom" ∧ item.fieldId = "customfield_10005"
    · rw [if_pos hc, mem_addIds, mem_addIds]
      tauto
    · rw [if_neg hc]
      tauto
  have hinit : x ∈ sj.foldl (fun acc sprint_id => acc.insert sprint_id) [] ↔ x ∈ sj := by
    rw [mem_foldl_general (fun a s => a.insert s) (fun y s => y = s)
      (fun acc a z => by rw [List.mem_insert_iff]; tauto) sj [] x]
    simp
  simp only [extract_sprint_ids]
  rw [mem_foldl_general _ _ hstep cl _ x, hinit]
  apply or_congr Iff.rfl
  apply exists_congr
  intro h
  apply and_congr Iff.rfl
  apply exists_congr
  intro item
  apply and_congr Iff.rfl
  rcases hlk : dict.lookup x with _ | info <;>
    simp [toSideOk, fromSideOk, hlk] <;> tauto

/-- C4 counterexample: a remove-side event at exactly the sprint's start
date (t = 10 = start) satisfies the claim's `t ≥ start ∧ t ≤ end`, yet the
code excludes the id — the "from" side uses a strict lower bound. -/
theorem C4_counterexample :
    claimC4RemoveOk cdictC4 10 "s" = true ∧
    "s" ∉ extract_sprint_ids cdictC4 [] cclC4 :=
  ⟨by decide, by decide⟩
